import Mathlib

/-
  Verification development for `src/Lab_2_4_LR2.py`.

  Shallow embedding conventions:
  * numpy 2-D arrays are lists of rows over `ℚ` (exact rational arithmetic
    stands for IEEE floats, which is faithful for the algebraic identities
    and exact equalities the claims are about);
  * `np.linalg.pinv` is modelled as the exact Moore-Penrose pseudo-inverse,
    computed by a rank factorisation `A = C·R` with
    `A⁺ = Rᵀ (R Rᵀ)⁻¹ (Cᵀ C)⁻¹ Cᵀ` (Gauss-Jordan elimination over ℚ);
  * Python exceptions become `Except Err` results and float division by zero
    (NaN / inf / ZeroDivisionError) becomes `none : Option ℚ`;
  * the cells of the raw feature table in `one_hot_encode` are a sum type of
    numeric scalars and string labels.
-/

/-- Number of columns of a rectangular matrix: the length of its first row. -/
def ncols (M : List (List ℚ)) : Nat := (M.headD []).length

/-- Dot product of two vectors (equal length in every use). -/
def dot (a b : List ℚ) : ℚ := (List.zipWith (fun x y => x * y) a b).sum

/-- Transpose of a rectangular matrix. -/
def transposeQ (M : List (List ℚ)) : List (List ℚ) :=
  (List.range (ncols M)).map (fun j => M.map (fun r => r.getD j 0))

/-- Matrix product (`@` on 2-D arrays). -/
def matMul (A B : List (List ℚ)) : List (List ℚ) :=
  A.map (fun r => (transposeQ B).map (fun c => dot r c))

/-- Matrix-vector product (`@` of a 2-D and a 1-D array). -/
def matVec (A : List (List ℚ)) (v : List ℚ) : List ℚ := A.map (fun r => dot r v)

/-- Index (at least `r`) of the first row with a nonzero entry in column `j`. -/
def findPivot (rows : List (List ℚ)) (r j : Nat) : Option Nat :=
  ((List.range rows.length).filter
    (fun i => decide (r ≤ i) && decide ((rows.getD i []).getD j 0 ≠ 0))).head?

/-- Swap rows `r` and `i` of a matrix. -/
def swapRows (rows : List (List ℚ)) (r i : Nat) : List (List ℚ) :=
  (rows.set r (rows.getD i [])).set i (rows.getD r [])

/-- One Gauss-Jordan elimination step on column `j`, with `r` the next pivot
row: returns the new rows, the next pivot row, and whether a pivot was found. -/
def elimStep (rows : List (List ℚ)) (r j : Nat) : List (List ℚ) × Nat × Bool :=
  match findPivot rows r j with
  | none => (rows, r, false)
  | some i =>
    let rs := swapRows rows r i
    let piv := (rs.getD r []).getD j 0
    let pr := (rs.getD r []).map (fun x => x / piv)
    let newRows := (List.range rs.length).map (fun k =>
      if k = r then pr
      else
        let rk := rs.getD k []
        List.zipWith (fun a b => a - rk.getD j 0 * b) rk pr)
    (newRows, r + 1, true)

/-- Reduced row echelon form with respect to the first `cols` columns,
returning the reduced matrix and the list of pivot column indices. -/
def rrefCols (A : List (List ℚ)) (cols : Nat) : List (List ℚ) × List Nat :=
  let st := (List.range cols).foldl
    (fun st j =>
      let e := elimStep st.1 st.2.1 j
      (e.1, e.2.1, if e.2.2 then st.2.2 ++ [j] else st.2.2))
    (A, 0, ([] : List Nat))
  (st.1, st.2.2)

/-- Gauss-Jordan inverse of a square matrix (via the identity-augmented
matrix), or `none` when the matrix is singular. -/
def gaussInv (A : List (List ℚ)) : Option (List (List ℚ)) :=
  let n := A.length
  let aug := (List.range n).map (fun i =>
    (A.getD i []) ++ (List.range n).map (fun j => if j = i then (1 : ℚ) else 0))
  let res := rrefCols aug n
  if res.2.length = n then some (res.1.map (fun r => r.drop n)) else none

/-- Moore-Penrose pseudo-inverse via the rank factorisation `A = C·R`
(`C` = pivot columns of `A`, `R` = nonzero rows of `rref A`):
`A⁺ = Rᵀ (R Rᵀ)⁻¹ (Cᵀ C)⁻¹ Cᵀ`. -/
def pinvCore (A : List (List ℚ)) : Option (List (List ℚ)) :=
  let er := rrefCols A (ncols A)
  let piv := er.2
  let R := er.1.take piv.length
  let C := A.map (fun row => piv.map (fun j => row.getD j 0))
  match gaussInv (matMul R (transposeQ R)), gaussInv (matMul (transposeQ C) C) with
  | some M1, some M2 =>
      some (matMul (matMul (matMul (transposeQ R) M1) M2) (transposeQ C))
  | _, _ => none

/-- Reshape a matrix to exactly `r × c` entries (reading absent entries as 0). -/
def fixShape (r c : Nat) (P : List (List ℚ)) : List (List ℚ) :=
  (List.range r).map (fun i => (List.range c).map (fun j => (P.getD i []).getD j 0))

/-- Model of `np.linalg.pinv`: the exact Moore-Penrose pseudo-inverse of an
`n × m` matrix, always shaped `m × n` (as numpy guarantees; `fixShape`
records that shape invariant). -/
def pinv (A : List (List ℚ)) : List (List ℚ) :=
  fixShape (ncols A) A.length ((pinvCore A).getD [])

/-- Error kinds raised by the Python code (`ValueError`, `IndexError`,
numpy dimension mismatches, `ZeroDivisionError`). -/
inductive Err where
  | invalidArgument
  | notFitted
  | dimensionMismatch
  | indexError
  | zeroDivision
deriving DecidableEq, Repr

/-- Argument that may be a 1-D or a 2-D numpy array. -/
inductive Arr where
  | oneD (v : List ℚ)
  | twoD (M : List (List ℚ))
deriving DecidableEq, Repr

/-- State of a `LinearRegressor`: `self.coefficients` and `self.intercept`,
both `None` until a fit completes. -/
structure LinearRegressor where
  coefficients : Option (List ℚ)
  intercept : Option ℚ
deriving DecidableEq, Repr

/-- Freshly constructed model (`LinearRegressor.__init__`). -/
def LinearRegressor.init : LinearRegressor :=
  { coefficients := none, intercept := none }

/-- Model of `LinearRegressor.predict` (lines 121-146): raises `ValueError`
("Model is not yet fitted") when either parameter is `None`; for a 1-D input
computes `self.coefficients[1] * X + self.intercept` (an `IndexError` when
fewer than two coefficients are stored); for a 2-D input computes
`X @ self.coefficients + self.intercept` (a dimension-mismatch `ValueError`
when the row length differs from the number of coefficients). -/
def predict (self : LinearRegressor) (X : Arr) : Except Err (List ℚ) :=
  match self.coefficients, self.intercept with
  | some c, some b =>
    match X with
    | .oneD v =>
        if 1 < c.length then .ok (v.map (fun x => c.getD 1 0 * x + b))
        else .error .indexError
    | .twoD M =>
        if ∀ r ∈ M, r.length = c.length then .ok (M.map (fun r => dot r c + b))
        else .error .dimensionMismatch
  | _, _ => .error .notFitted

/-- Model of `LinearRegressor.fit_multiple` (lines 53-77): reshapes a 1-D
input to a single column, prepends a ones column (`np.c_[np.ones(n), X]` -
note the caller `fit` has already prepended one), and solves
`beta = pinv(Xᵀ X) @ Xᵀ @ y`; `beta[0]` becomes the intercept and `beta[1:]`
the coefficient vector.  (`y.ravel()` is the identity on a 1-D target.) -/
def fit_multiple (self : LinearRegressor) (X : Arr) (y : List ℚ) : LinearRegressor :=
  let M := match X with
    | .oneD v => v.map (fun x => [x])
    | .twoD M => M
  let Xones := M.map (fun r => 1 :: r)
  let XT := transposeQ Xones
  let beta := matVec (matMul (pinv (matMul XT Xones)) XT) y
  { coefficients := some (beta.drop 1), intercept := some (beta.headD 0) }

/-- One epoch of `fit_gradient_descent` (loop body, lines 102-114), acting on
the parameter state `(coefficients, intercept)`:
`predictions = self.predict(X[:, 1:])`, `error = predictions - y`,
`gradient_w` is a one-element Python list (the loop runs over
`range(1, X.ndim) = [1]` since `X` is 2-D) whose entry is
`(2*learning_rate/m) * np.sum(np.dot(X.T**1, error))`, and numpy
broadcasting subtracts that single scalar from every coefficient;
`gradient_b = (2/m) * np.sum(error)` and the intercept update subtracts
`learning_rate * gradient_b`.  Division by `m = len(y) = 0` raises. -/
def gdStepE (X : List (List ℚ)) (y : List ℚ) (learning_rate : ℚ)
    (s : List ℚ × ℚ) : Except Err (List ℚ × ℚ) :=
  let m : ℚ := (y.length : ℚ)
  match predict { coefficients := some s.1, intercept := some s.2 }
      (Arr.twoD (X.map (fun r => r.drop 1))) with
  | .error e => .error e
  | .ok predictions =>
    if y.length = 0 then .error .zeroDivision
    else
      let err := List.zipWith (fun p yi => p - yi) predictions y
      let gradient_w := (List.range' 1 1).map (fun j =>
        (2 * learning_rate / m) *
          (matVec ((transposeQ X).map (fun row => row.map (fun v => v ^ j))) err).sum)
      let gradient_b := (2 / m) * err.sum
      .ok (s.1.map (fun wi => wi - gradient_w.headD 0),
           s.2 - learning_rate * gradient_b)

/-- Iteration of the gradient-descent epochs (`for epoch in range(iterations)`). -/
def gdIter (X : List (List ℚ)) (y : List ℚ) (learning_rate : ℚ) :
    Nat → List ℚ × ℚ → Except Err (List ℚ × ℚ)
  | 0, s => .ok s
  | n + 1, s => (gdStepE X y learning_rate s).bind (gdIter X y learning_rate n)

/-- Model of `LinearRegressor.fit_gradient_descent` (lines 79-119): the
parameters start at the random draws `w0` (standing for
`np.random.rand(X.shape[1] - 1) * 0.01`) and `b0` (standing for
`np.random.rand() * 0.01`), then `iterations` epochs of `gdStepE` run.
The `print` of the MSE every 1000 epochs is observability only. -/
def fit_gradient_descent (self : LinearRegressor) (X : List (List ℚ)) (y : List ℚ)
    (learning_rate : ℚ) (iterations : Nat) (w0 : List ℚ) (b0 : ℚ) :
    Except Err LinearRegressor :=
  (gdIter X y learning_rate iterations (w0, b0)).map
    (fun s => { coefficients := some s.1, intercept := some s.2 })

/-- Model of `LinearRegressor.fit` (lines 22-51): rejects any method other
than `"least_squares"` and `"gradient_descent"` with a `ValueError` before
touching the data, reshapes a 1-D `X` to a single column, prepends the ones
column (`np.insert(X, 0, 1, axis=1)`), and dispatches.  `w0` and `b0` stand
for the random initial parameters drawn inside the gradient-descent branch. -/
def fit (self : LinearRegressor) (X : Arr) (y : List ℚ) (method : String)
    (learning_rate : ℚ) (iterations : Nat) (w0 : List ℚ) (b0 : ℚ) :
    Except Err LinearRegressor :=
  if ¬ (method = "least_squares" ∨ method = "gradient_descent") then
    .error .invalidArgument
  else
    let M := match X with
      | .oneD v => v.map (fun x => [x])
      | .twoD M => M
    let X_with_bias := M.map (fun r => 1 :: r)
    if method = "least_squares" then
      .ok (fit_multiple self (Arr.twoD X_with_bias) y)
    else
      fit_gradient_descent self X_with_bias y learning_rate iterations w0 b0

instance {ε α : Type} [DecidableEq ε] [DecidableEq α] : DecidableEq (Except ε α) := fun a b =>
  match a, b with
  | .ok x, .ok y => if h : x = y then .isTrue (by simp [h]) else .isFalse (by simp [h])
  | .error e, .error f => if h : e = f then .isTrue (by simp [h]) else .isFalse (by simp [h])
  | .ok _, .error _ => .isFalse (by simp)
  | .error _, .ok _ => .isFalse (by simp)

/-- Float division, undefined (`none`) when the denominator vanishes: the
Python code produces NaN/inf (numpy float division) or raises
`ZeroDivisionError` (integer denominator) there, never a normal number. -/
def qdiv (a b : ℚ) : Option ℚ := if b = 0 then none else some (a / b)

/-- Square root used by `evaluate_regression` (`np.sqrt`); exact on perfect
squares, which covers every value the claims evaluate it at (namely 0). -/
def sqrtQ (q : ℚ) : ℚ := (Nat.sqrt q.num.toNat : ℚ) / (Nat.sqrt q.den : ℚ)

/-- Result dictionary of `evaluate_regression`. -/
structure EvalResult where
  R2 : Option ℚ
  RMSE : Option ℚ
  MAE : Option ℚ
deriving DecidableEq, Repr

/-- Model of `evaluate_regression` (lines 155-183):
`R2 = 1 - RSS/TSS` with `RSS = Σ (y_true - y_pred)²` and
`TSS = Σ (y_true - mean(y_true))²`; `RMSE = sqrt((1/N) * RSS)`;
`MAE = (1/N) * Σ |y_true - y_pred|` where `N = len(y_true)`. -/
def evaluate_regression (y_true y_pred : List ℚ) : EvalResult :=
  let N : ℚ := (y_true.length : ℚ)
  let RSS := ((y_true.zip y_pred).map (fun p => (p.1 - p.2) ^ 2)).sum
  let R2 := (qdiv y_true.sum N).bind (fun data_mean =>
    (qdiv RSS ((y_true.map (fun v => (v - data_mean) ^ 2)).sum)).map (fun q => 1 - q))
  let RMSE := (qdiv 1 N).map (fun t => sqrtQ (t * RSS))
  let MAE := (qdiv 1 N).map (fun t =>
    t * ((y_true.zip y_pred).map (fun p => |p.1 - p.2|)).sum)
  { R2 := R2, RMSE := RMSE, MAE := MAE }

/-- Cell of the raw feature table handled by `one_hot_encode`: a numeric
scalar or a string category label.  (A numpy array coerces everything to a
single dtype; the claims are dtype-agnostic, so the model keeps both.) -/
inductive Cell where
  | num (q : ℚ)
  | str (s : String)
deriving DecidableEq, Repr

/-- Sort order used by `np.unique`: numeric order on numbers, lexicographic
order on strings.  Columns are homogeneous, so the cross cases only fix an
arbitrary global order. -/
def cellLt : Cell → Cell → Prop
  | .num a, .num b => a < b
  | .num _, .str _ => True
  | .str _, .num _ => False
  | .str a, .str b => a < b

instance : DecidableRel cellLt := fun a b =>
  match a, b with
  | .num a, .num b => inferInstanceAs (Decidable (a < b))
  | .num _, .str _ => inferInstanceAs (Decidable True)
  | .str _, .num _ => inferInstanceAs (Decidable False)
  | .str a, .str b => inferInstanceAs (Decidable (a < b))

/-- Insert a value into a sorted duplicate-free list, keeping it sorted and
duplicate-free. -/
def insertCell (v : Cell) : List Cell → List Cell
  | [] => [v]
  | x :: xs =>
    if v = x then x :: xs
    else if cellLt v x then v :: x :: xs
    else x :: insertCell v xs

/-- Model of `np.unique`: the sorted list of the distinct values of a column. -/
def sortedUnique (l : List Cell) : List Cell := l.foldr insertCell []

/-- Model of `np.searchsorted(uniq, v)` for sorted `uniq`: the left insertion
point, i.e. the number of elements strictly below `v` (the rank of `v` when
`v ∈ uniq`). -/
def rankOf (uniq : List Cell) (v : Cell) : Nat :=
  (uniq.filter (fun u => decide (cellLt u v))).length

/-- Row `np.eye(len(uniq))[np.searchsorted(uniq, v)]` of the indicator
matrix: a single 1 at the rank of `v`, 0 elsewhere. -/
def oneHotRow (uniq : List Cell) (v : Cell) : List Cell :=
  (List.range uniq.length).map
    (fun k => if k = rankOf uniq v then Cell.num 1 else Cell.num 0)

/-- One iteration of the loop of `one_hot_encode` (lines 200-216): extract
the categorical column, compute its sorted unique levels, build the one-hot
rows (dropping the first level from every row when `drop_first`), then
delete the original column and splice the indicator block in at its
position.  Fails (numpy `IndexError`) on an out-of-range column index. -/
def encodeStep (X : List (List Cell)) (index : Nat) (drop_first : Bool) :
    Option (List (List Cell)) :=
  if ∀ row ∈ X, index < row.length then
    let uniq := sortedUnique (X.map (fun row => row.getD index (Cell.num 0)))
    some (X.map (fun row =>
      let ind0 := oneHotRow uniq (row.getD index (Cell.num 0))
      let ind := if drop_first then ind0.drop 1 else ind0
      row.take index ++ ind ++ row.drop (index + 1)))
  else none

/-- Insertion into a descending-sorted list of indices. -/
def insertDesc (v : Nat) : List Nat → List Nat
  | [] => [v]
  | x :: xs => if x < v then v :: x :: xs else x :: insertDesc v xs

/-- Model of `sorted(categorical_indices, reverse=True)`. -/
def sortDescNat (l : List Nat) : List Nat := l.foldr insertDesc []

/-- Model of `one_hot_encode(X, categorical_indices, drop_first)`: the
categorical columns are processed in descending index order; with no
categorical indices the copied input is returned unchanged. -/
def one_hot_encode (X : List (List Cell)) (categorical_indices : List Nat)
    (drop_first : Bool) : Option (List (List Cell)) :=
  (sortDescNat categorical_indices).foldlM
    (fun acc index => encodeStep acc index drop_first) X

theorem length_matMul (A B : List (List ℚ)) : (matMul A B).length = A.length := by
  simp [matMul]

theorem length_transposeQ (M : List (List ℚ)) : (transposeQ M).length = ncols M := by
  simp [transposeQ]

theorem length_matVec (A : List (List ℚ)) (v : List ℚ) :
    (matVec A v).length = A.length := by
  simp [matVec]

theorem length_fixShape (r c : Nat) (P : List (List ℚ)) :
    (fixShape r c P).length = r := by
  simp [fixShape]

theorem length_pinv (A : List (List ℚ)) : (pinv A).length = ncols A := by
  simp [pinv, length_fixShape]

theorem ncols_matMul (A B : List (List ℚ)) (h : A ≠ []) :
    ncols (matMul A B) = (transposeQ B).length := by
  obtain ⟨r, A', rfl⟩ := List.exists_cons_of_ne_nil h
  simp [matMul, ncols]

theorem ncols_cons (r : List ℚ) (M : List (List ℚ)) : ncols (r :: M) = r.length := by
  simp [ncols]

/-- Claim C5: calling `fit` with a method string other than `"least_squares"`
or `"gradient_descent"` always fails with the invalid-argument `ValueError`
raised before any computation, for every model state and all inputs; the
(purely functional) model state is returned unchanged only through the
error, i.e. no parameter update happens. -/
theorem fit_invalid_method_error (self : LinearRegressor) (X : Arr) (y : List ℚ)
    (method : String) (learning_rate : ℚ) (iterations : Nat) (w0 : List ℚ) (b0 : ℚ)
    (h1 : method ≠ "least_squares") (h2 : method ≠ "gradient_descent") :
    fit self X y method learning_rate iterations w0 b0 =
      Except.error Err.invalidArgument := by
  simp [fit, h1, h2]

theorem fit_invalid_method_error_witness :
    (("bogus" : String) ≠ "least_squares" ∧ ("bogus" : String) ≠ "gradient_descent") ∧
      fit LinearRegressor.init (Arr.oneD [0]) [1] "bogus" 0 0 [] 0 =
        Except.error Err.invalidArgument :=
  ⟨⟨by simp, by simp⟩,
    fit_invalid_method_error LinearRegressor.init (Arr.oneD [0]) [1] "bogus" 0 0 [] 0
      (by simp) (by simp)⟩

/-- Claim C6: `predict` on a model whose intercept or coefficients are still
undefined (in particular on a freshly constructed model, before any fit has
completed) always fails with the not-fitted `ValueError`, whatever the input. -/
theorem predict_unfitted_error (self : LinearRegressor) (X : Arr)
    (h : self.coefficients = none ∨ self.intercept = none) :
    predict self X = Except.error Err.notFitted := by
  obtain ⟨c, b⟩ := self
  cases c <;> cases b <;> simp_all [predict]

theorem predict_unfitted_error_witness :
    (LinearRegressor.init.coefficients = none ∨ LinearRegressor.init.intercept = none) ∧
      predict LinearRegressor.init (Arr.oneD [1, 2]) = Except.error Err.notFitted :=
  ⟨Or.inl rfl,
    predict_unfitted_error LinearRegressor.init (Arr.oneD [1, 2]) (Or.inl rfl)⟩

/-- Claim C9: `one_hot_encode` with an empty list of categorical indices
returns a matrix equal to the input, for every matrix and either flag (the
model is purely functional, so the input itself is never mutated; the code
operates on `X.copy()`). -/
theorem one_hot_no_categorical_identity (X : List (List Cell)) (drop_first : Bool) :
    one_hot_encode X [] drop_first = some X := rfl

/-- Claim C1 (failing input): on the noiseless single-feature dataset
`x = [0, 1]`, `y = 2x + 3 = [3, 5]`, a least-squares fit stores intercept
`3/2` and coefficients `[3/2, 2]` (the minimum-norm solution over the
doubly-augmented matrix `[[1,1,0],[1,1,1]]`), and `3/2` is not within
tolerance `1e-6` of the claimed intercept `3`. -/
theorem least_squares_line_stored_params :
    fit LinearRegressor.init (Arr.oneD [0, 1]) [3, 5] "least_squares" 0 0 [] 0 =
      Except.ok { coefficients := some [3/2, 2], intercept := some (3/2) } ∧
    ¬ |(3/2 : ℚ) - 3| ≤ 1 / 1000000 := by
  constructor
  · with_unfolding_all decide
  · rw [abs_sub_comm, abs_of_nonneg (by norm_num)]
    norm_num

/-- Claim C2 (failing input): on the 2-D single-column input `X = [[0], [1]]`
(`p = 1` feature) with `y = [3, 5]`, the augmented matrix actually solved is
`[[1,1,0],[1,1,1]]` of shape `(n, p+2)` - the ones column is prepended twice,
once by `fit` and once by `fit_multiple` - and the stored coefficient vector
`β[1:] = [3/2, 2]` has length `p + 1 = 2`, not `p = 1`. -/
theorem least_squares_double_bias_shape :
    (fit LinearRegressor.init (Arr.twoD [[0], [1]]) [3, 5] "least_squares" 0 0 [] 0 =
      Except.ok { coefficients := some [3/2, 2], intercept := some (3/2) }) ∧
    (([[(0 : ℚ)], [1]].map (fun r => 1 :: r)).map (fun r => 1 :: r) =
      [[1, 1, 0], [1, 1, 1]]) ∧
    [(3/2 : ℚ), 2].length ≠ 1 := by
  refine ⟨?_, by norm_num, by simp⟩
  with_unfolding_all decide

theorem fit_multiple_shape (self : LinearRegressor) (M : List (List ℚ)) (y : List ℚ)
    (q : Nat) (hMne : M ≠ []) (hM : ∀ r ∈ M, r.length = q) :
    ∃ c, (fit_multiple self (Arr.twoD M) y).coefficients = some c ∧ c.length = q := by
  obtain ⟨r0, M0, rfl⟩ := List.exists_cons_of_ne_nil hMne
  have hr0 : r0.length = q := hM r0 (by simp)
  have hXTne : transposeQ ((r0 :: M0).map (fun r => (1 : ℚ) :: r)) ≠ [] := by
    apply List.ne_nil_of_length_pos
    rw [length_transposeQ]
    simp [ncols]
  simp only [fit_multiple]
  refine ⟨_, rfl, ?_⟩
  rw [List.length_drop, length_matVec, length_matMul, length_pinv,
    ncols_matMul _ _ hXTne, length_transposeQ]
  simp [ncols, hr0]

/-- Claim C3: after a least-squares fit on a 2-D feature matrix with `p ≥ 1`
columns, the stored coefficient vector has length `p + 1` rather than `p`
(because `fit_multiple` prepends a second ones column on top of the one
`fit` already added), so a subsequent `predict` on any nonempty 2-D matrix
with those same `p` feature columns raises the dimension-mismatch error
instead of returning predictions. -/
theorem least_squares_coeff_length_predict_mismatch
    (self : LinearRegressor) (X X2 : List (List ℚ)) (y : List ℚ) (p : Nat)
    (learning_rate : ℚ) (iterations : Nat) (w0 : List ℚ) (b0 : ℚ)
    (hp : 1 ≤ p) (hXne : X ≠ []) (hX : ∀ r ∈ X, r.length = p)
    (hX2ne : X2 ≠ []) (hX2 : ∀ r ∈ X2, r.length = p) :
    ∃ m, fit self (Arr.twoD X) y "least_squares" learning_rate iterations w0 b0
        = Except.ok m ∧
      (∃ c, m.coefficients = some c ∧ c.length = p + 1) ∧
      predict m (Arr.twoD X2) = Except.error Err.dimensionMismatch := by
  have hfit : fit self (Arr.twoD X) y "least_squares" learning_rate iterations w0 b0
      = Except.ok (fit_multiple self (Arr.twoD (X.map (fun r => 1 :: r))) y) := by
    simp [fit]
  have hXbne : X.map (fun r => (1 : ℚ) :: r) ≠ [] := by
    simpa using hXne
  have hXb : ∀ r ∈ X.map (fun r => (1 : ℚ) :: r), r.length = p + 1 := by
    intro r hr
    obtain ⟨r', hr', rfl⟩ := List.mem_map.mp hr
    simp [hX r' hr']
  obtain ⟨c, hc, hclen⟩ :=
    fit_multiple_shape self (X.map (fun r => 1 :: r)) y (p + 1) hXbne hXb
  refine ⟨_, hfit, ⟨c, hc, hclen⟩, ?_⟩
  obtain ⟨r2, X2', rfl⟩ := List.exists_cons_of_ne_nil hX2ne
  have hb : (fit_multiple self (Arr.twoD (X.map (fun r => 1 :: r))) y).intercept
      = some ((matVec (matMul (pinv (matMul
          (transposeQ ((X.map (fun r => 1 :: r)).map (fun r => 1 :: r)))
          ((X.map (fun r => 1 :: r)).map (fun r => 1 :: r))))
          (transposeQ ((X.map (fun r => 1 :: r)).map (fun r => 1 :: r)))) y).headD 0) := rfl
  simp only [predict, hc, hb]
  rw [if_neg]
  intro hall
  have h2 := hall r2 (by simp)
  rw [hX2 r2 (by simp)] at h2
  omega

theorem least_squares_coeff_length_predict_mismatch_witness :
    ((1 ≤ 1) ∧ ([[(0 : ℚ)]] ≠ ([] : List (List ℚ))) ∧
      (∀ r ∈ [[(0 : ℚ)]], r.length = 1) ∧
      ([[(7 : ℚ)]] ≠ ([] : List (List ℚ))) ∧
      (∀ r ∈ [[(7 : ℚ)]], r.length = 1)) ∧
    ∃ m, fit LinearRegressor.init (Arr.twoD [[0]]) [3] "least_squares" 0 0 [] 0
        = Except.ok m ∧
      (∃ c, m.coefficients = some c ∧ c.length = 1 + 1) ∧
      predict m (Arr.twoD [[7]]) = Except.error Err.dimensionMismatch :=
  ⟨⟨le_refl 1, by simp, by simp, by simp, by simp⟩,
    least_squares_coeff_length_predict_mismatch LinearRegressor.init [[0]] [[7]] [3] 1
      0 0 [] 0 (le_refl 1) (by simp) (by simp) (by simp) (by simp)⟩

theorem sum_map_add {α : Type} (l : List α) (f g : α → ℚ) :
    (l.map (fun x => f x + g x)).sum = (l.map f).sum + (l.map g).sum := by
  induction l with
  | nil => simp
  | cons a l ih => simp [ih]; ring

theorem sum_getD_range (r : List ℚ) :
    ((List.range r.length).map (fun j => r.getD j 0)).sum = r.sum := by
  induction r with
  | nil => simp
  | cons a r ih =>
    rw [List.length_cons, List.range_succ_eq_map]
    simp only [List.map_cons, List.map_map, List.sum_cons, List.getD_cons_zero,
      Function.comp_def, Nat.succ_eq_add_one, List.getD_cons_succ]
    rw [ih]

theorem colsum_swap (N : Nat) (X : List (List ℚ)) :
    ∀ e : List ℚ, e.length = X.length → (∀ r ∈ X, r.length = N) →
      ((List.range N).map
        (fun j => (List.zipWith (fun r ei => r.getD j 0 * ei) X e).sum)).sum =
      (List.zipWith (fun r ei => ei * r.sum) X e).sum := by
  induction X with
  | nil =>
    intro e he _
    rw [List.length_eq_zero.mp he]
    simp
  | cons r X ih =>
    intro e he hrect
    cases e with
    | nil => simp at he
    | cons ei e' =>
      simp only [List.zipWith_cons_cons, List.sum_cons]
      rw [sum_map_add (List.range N) (fun j => r.getD j 0 * ei)
        (fun j => (List.zipWith (fun r ei => r.getD j 0 * ei) X e').sum)]
      have hrN : r.length = N := hrect r (by simp)
      have h1 : ((List.range N).map (fun j => r.getD j 0 * ei)).sum = r.sum * ei := by
        rw [List.sum_map_mul_right, ← hrN, sum_getD_range]
      rw [h1, ih e' (by simpa using he) (fun r hr => hrect r (by simp [hr]))]
      ring

theorem sum_matVec_transposeQ (X : List (List ℚ)) (e : List ℚ) (N : Nat)
    (hXne : X ≠ []) (he : e.length = X.length) (hrect : ∀ r ∈ X, r.length = N) :
    (matVec (transposeQ X) e).sum =
      (List.zipWith (fun r ei => ei * r.sum) X e).sum := by
  have hncols : ncols X = N := by
    obtain ⟨r0, X0, rfl⟩ := List.exists_cons_of_ne_nil hXne
    simp [ncols, hrect r0 (by simp)]
  simp only [matVec, transposeQ, List.map_map, Function.comp_def]
  rw [hncols]
  have hdot : ∀ j : Nat, dot (X.map (fun r => r.getD j 0)) e =
      (List.zipWith (fun r ei => r.getD j 0 * ei) X e).sum := by
    intro j
    simp only [dot]
    rw [List.zipWith_map_left]
  simp only [hdot]
  exact colsum_swap N X e he hrect

/-- Claim C4 (amended): in every epoch of gradient-descent fitting (the loop
iterates `gdStepE`), the intercept gradient is `(2/m) * Σ residual` and the
intercept update subtracts `learning_rate` times it, exactly as claimed; and
every coefficient is indeed updated by subtracting one identical scalar
step - but that scalar is `(2 * learning_rate / m) * Σ_i residual_i * (row
sum of the bias-augmented row i)`, i.e. `(2*lr/m) * np.sum(Xᵀ @ residual)`,
not `(2 * learning_rate / m) * Σ residual` as the claim states. -/
theorem gd_step_update (X : List (List ℚ)) (y w : List ℚ) (b learning_rate : ℚ)
    (n : Nat) (s : List ℚ × ℚ)
    (hlen : X.length = y.length) (hne : y ≠ [])
    (hrect : ∀ r ∈ X, r.length = w.length + 1) :
    (gdStepE X y learning_rate (w, b) =
      Except.ok
        (w.map (fun wi => wi -
          (2 * learning_rate / ((y.length : ℕ) : ℚ)) *
            (List.zipWith (fun r ei => ei * r.sum) X
              (List.zipWith (fun r yi => (dot (r.drop 1) w + b) - yi) X y)).sum),
         b - learning_rate * ((2 / ((y.length : ℕ) : ℚ)) *
            (List.zipWith (fun r yi => (dot (r.drop 1) w + b) - yi) X y).sum))) ∧
    (gdIter X y learning_rate (n + 1) s =
      (gdStepE X y learning_rate s).bind (gdIter X y learning_rate n)) := by
  refine ⟨?_, rfl⟩
  have hXne : X ≠ [] := by
    intro h
    subst h
    exact hne (List.length_eq_zero.mp (by simpa using hlen.symm))
  have hguard : ∀ r ∈ X.map (fun r => r.drop 1), r.length = w.length := by
    intro r hr
    obtain ⟨r', hr', rfl⟩ := List.mem_map.mp hr
    rw [List.length_drop, hrect r' hr']
    omega
  have hpred : predict { coefficients := some w, intercept := some b }
      (Arr.twoD (X.map (fun r => r.drop 1))) =
      Except.ok (X.map (fun r => dot (r.drop 1) w + b)) := by
    simp only [predict]
    rw [if_pos hguard]
    simp [List.map_map, Function.comp_def]
  have hm0 : ¬ (y.length = 0) := by simpa using hne
  have hE : List.zipWith (fun p yi => p - yi)
      (X.map (fun r => dot (r.drop 1) w + b)) y =
      List.zipWith (fun r yi => (dot (r.drop 1) w + b) - yi) X y := by
    rw [List.zipWith_map_left]
  have hElen : (List.zipWith (fun r yi => (dot (r.drop 1) w + b) - yi) X y).length
      = X.length := by
    rw [List.length_zipWith, hlen, Nat.min_self]
  simp only [gdStepE]
  rw [hpred]
  simp only [hE, if_neg hm0, pow_one, List.map_id]
  have hsum := sum_matVec_transposeQ X
    (List.zipWith (fun r yi => (dot (r.drop 1) w + b) - yi) X y)
    (w.length + 1) hXne hElen hrect
  simp only [List.range', List.map_cons, List.map_nil, List.headD_cons, pow_one,
    List.map_id, List.map_id']
  rw [hsum]

/-- Claim C4 counterexample: one gradient-descent epoch on the single row
`X_with_bias = [[1, 2]]` with `y = [0]`, current coefficients `[1]`,
intercept `0` and `learning_rate = 1`.  The residual is `2`, so the claimed
coefficient step `(2 * learning_rate / m) * Σ residual = 4` would give the
new coefficient `1 - 4 = -3`; the code actually computes the step
`(2 * learning_rate / m) * np.sum(Xᵀ @ residual) = 12` and stores `-11`. -/
theorem gd_uniform_step_counterexample :
    gdStepE [[1, 2]] [0] 1 ([1], 0) = Except.ok ([-11], -4) ∧
    ([(-11 : ℚ)] ≠ [1 - (2 * 1 / 1) * 2]) := by
  constructor
  · with_unfolding_all decide
  · with_unfolding_all decide

theorem gd_step_update_witness :
    (([[(1 : ℚ), 2]] : List (List ℚ)).length = [(0 : ℚ)].length ∧
      [(0 : ℚ)] ≠ [] ∧
      (∀ r ∈ ([[(1 : ℚ), 2]] : List (List ℚ)), r.length = [(1 : ℚ)].length + 1)) ∧
    (gdStepE [[1, 2]] [0] 1 ([1], 0) =
      Except.ok
        ([(1 : ℚ)].map (fun wi => wi -
          (2 * 1 / (([(0 : ℚ)].length : ℕ) : ℚ)) *
            (List.zipWith (fun r ei => ei * r.sum) [[(1 : ℚ), 2]]
              (List.zipWith (fun r yi => (dot (r.drop 1) [1] + 0) - yi)
                [[(1 : ℚ), 2]] [0])).sum),
         0 - 1 * ((2 / (([(0 : ℚ)].length : ℕ) : ℚ)) *
            (List.zipWith (fun r yi => (dot (r.drop 1) [1] + 0) - yi)
              [[(1 : ℚ), 2]] [0]).sum))) ∧
    (gdIter [[1, 2]] [0] 1 (0 + 1) ([1], 0) =
      (gdStepE [[1, 2]] [0] 1 ([1], 0)).bind (gdIter [[1, 2]] [0] 1 0)) :=
  ⟨⟨rfl, by simp, by simp⟩,
    gd_step_update [[1, 2]] [0] [1] 0 1 0 ([1], 0) rfl (by simp) (by simp)⟩

theorem cellLt_irrefl (a : Cell) : ¬ cellLt a a := by
  cases a <;> simp [cellLt]

theorem cellLt_trans {a b c : Cell} (h1 : cellLt a b) (h2 : cellLt b c) :
    cellLt a c := by
  cases a <;> cases b <;> cases c <;> simp only [cellLt] at h1 h2 ⊢ <;>
    first
    | trivial
    | exact h1.trans h2
    | exact h1.elim
    | exact h2.elim

theorem cellLt_asymm {a b : Cell} (h : cellLt a b) : ¬ cellLt b a := by
  intro h2
  exact cellLt_irrefl a (cellLt_trans h h2)

theorem cellLt_total {a b : Cell} (h : a ≠ b) : cellLt a b ∨ cellLt b a := by
  cases a <;> cases b <;> simp only [cellLt, Cell.num.injEq, Cell.str.injEq,
    ne_eq] at h ⊢ <;>
    first
    | trivial
    | exact lt_or_gt_of_ne h

instance : IsAntisymm Cell cellLt :=
  ⟨fun _ _ h1 h2 => absurd h2 (cellLt_asymm h1)⟩

theorem mem_insertCell {v w : Cell} {l : List Cell} :
    w ∈ insertCell v l ↔ w = v ∨ w ∈ l := by
  induction l with
  | nil => simp [insertCell]
  | cons x xs ih =>
    simp only [insertCell]
    split
    · rename_i h1
      subst h1
      simp only [List.mem_cons]
      tauto
    · split
      · simp only [List.mem_cons]
      · simp only [List.mem_cons, ih]
        tauto

theorem sorted_insertCell {v : Cell} {l : List Cell}
    (h : List.Sorted cellLt l) : List.Sorted cellLt (insertCell v l) := by
  induction l with
  | nil => simp [insertCell]
  | cons x xs ih =>
    rw [List.sorted_cons] at h
    by_cases h1 : v = x
    · subst h1
      simpa [insertCell, List.sorted_cons] using h
    · by_cases h2 : cellLt v x
      · simp only [insertCell, if_neg h1, if_pos h2, List.sorted_cons, List.mem_cons]
        refine ⟨fun b hb => ?_, h.1, h.2⟩
        rcases hb with rfl | hb
        · exact h2
        · exact cellLt_trans h2 (h.1 b hb)
      · have hxv : cellLt x v := (cellLt_total h1).resolve_left h2
        simp only [insertCell, if_neg h1, if_neg h2, List.sorted_cons]
        refine ⟨fun b hb => ?_, ih h.2⟩
        rcases mem_insertCell.mp hb with rfl | hb
        · exact hxv
        · exact h.1 b hb

theorem sorted_sortedUnique (l : List Cell) :
    List.Sorted cellLt (sortedUnique l) := by
  induction l with
  | nil => simp [sortedUnique]
  | cons x xs ih => exact sorted_insertCell ih

theorem mem_sortedUnique {v : Cell} {l : List Cell} :
    v ∈ sortedUnique l ↔ v ∈ l := by
  induction l with
  | nil => simp [sortedUnique]
  | cons x xs ih =>
    show v ∈ insertCell x (sortedUnique xs) ↔ _
    rw [mem_insertCell, ih]
    simp

theorem nodup_of_sorted {l : List Cell} (h : List.Sorted cellLt l) : l.Nodup :=
  h.imp (fun hab heq => absurd (heq ▸ hab) (cellLt_irrefl _))

theorem sortedUnique_eq_sorted {l u : List Cell} (hu : List.Sorted cellLt u)
    (h : ∀ v, v ∈ l ↔ v ∈ u) : sortedUnique l = u := by
  refine List.eq_of_perm_of_sorted ?_ (sorted_sortedUnique l) hu
  refine List.perm_of_nodup_nodup_toFinset_eq
    (nodup_of_sorted (sorted_sortedUnique l)) (nodup_of_sorted hu) ?_
  ext a
  simp [List.mem_toFinset, mem_sortedUnique, h]

theorem one_hot_encode_single (X : List (List Cell)) (i : Nat) (df : Bool) :
    one_hot_encode X [i] df = encodeStep X i df := by
  simp [one_hot_encode, sortDescNat, insertDesc]

/-- Claim C7: for every matrix whose designated categorical column contains
exactly the categories `"a"`, `"b"`, `"c"`, `one_hot_encode` with
`drop_first = False` replaces that column in place with the 3 indicator
columns of `np.eye(3)` indexed by the rank of each row's category in sorted
level order (one 1 per row, 0 elsewhere); with `drop_first = True` it yields
the 2 remaining indicator columns and every row of the first-sorting
category `"a"` becomes all zeros. -/
theorem one_hot_three_categories (X : List (List Cell)) (i : Nat)
    (hi : ∀ row ∈ X, i < row.length)
    (hmem : ∀ row ∈ X, row.getD i (Cell.num 0) = Cell.str "a" ∨
      row.getD i (Cell.num 0) = Cell.str "b" ∨ row.getD i (Cell.num 0) = Cell.str "c")
    (ha : ∃ row ∈ X, row.getD i (Cell.num 0) = Cell.str "a")
    (hb : ∃ row ∈ X, row.getD i (Cell.num 0) = Cell.str "b")
    (hc : ∃ row ∈ X, row.getD i (Cell.num 0) = Cell.str "c") :
    (one_hot_encode X [i] false = some (X.map (fun row =>
      row.take i ++
        oneHotRow [Cell.str "a", Cell.str "b", Cell.str "c"] (row.getD i (Cell.num 0)) ++
        row.drop (i + 1)))) ∧
    (one_hot_encode X [i] true = some (X.map (fun row =>
      row.take i ++
        (oneHotRow [Cell.str "a", Cell.str "b", Cell.str "c"]
          (row.getD i (Cell.num 0))).drop 1 ++
        row.drop (i + 1)))) ∧
    oneHotRow [Cell.str "a", Cell.str "b", Cell.str "c"] (Cell.str "a")
      = [Cell.num 1, Cell.num 0, Cell.num 0] ∧
    oneHotRow [Cell.str "a", Cell.str "b", Cell.str "c"] (Cell.str "b")
      = [Cell.num 0, Cell.num 1, Cell.num 0] ∧
    oneHotRow [Cell.str "a", Cell.str "b", Cell.str "c"] (Cell.str "c")
      = [Cell.num 0, Cell.num 0, Cell.num 1] ∧
    (oneHotRow [Cell.str "a", Cell.str "b", Cell.str "c"] (Cell.str "a")).drop 1
      = [Cell.num 0, Cell.num 0] ∧
    (oneHotRow [Cell.str "a", Cell.str "b", Cell.str "c"] (Cell.str "b")).drop 1
      = [Cell.num 1, Cell.num 0] ∧
    (oneHotRow [Cell.str "a", Cell.str "b", Cell.str "c"] (Cell.str "c")).drop 1
      = [Cell.num 0, Cell.num 1] := by
  have huniq : sortedUnique (X.map (fun row => row.getD i (Cell.num 0)))
      = [Cell.str "a", Cell.str "b", Cell.str "c"] := by
    apply sortedUnique_eq_sorted
    · simp only [List.sorted_cons, List.mem_cons, List.mem_singleton,
        List.sorted_singleton, List.not_mem_nil]
      refine ⟨?_, ?_⟩
      · intro u hu
        rcases hu with rfl | rfl | h
        · with_unfolding_all decide
        · with_unfolding_all decide
        · simp at h
      · constructor
        · intro u hu
          rcases hu with rfl | h
          · with_unfolding_all decide
          · simp at h
        · simp
    · intro u
      constructor
      · intro hu
        obtain ⟨row, hrow, rfl⟩ := List.mem_map.mp hu
        rcases hmem row hrow with h | h | h <;> rw [h] <;> simp
      · intro hu
        simp only [List.mem_cons, List.not_mem_nil, or_false] at hu
        rcases hu with rfl | rfl | rfl
        · obtain ⟨row, hrow, he⟩ := ha
          exact he ▸ List.mem_map_of_mem _ hrow
        · obtain ⟨row, hrow, he⟩ := hb
          exact he ▸ List.mem_map_of_mem _ hrow
        · obtain ⟨row, hrow, he⟩ := hc
          exact he ▸ List.mem_map_of_mem _ hrow
  refine ⟨?_, ?_, by with_unfolding_all decide, by with_unfolding_all decide,
    by with_unfolding_all decide, by with_unfolding_all decide,
    by with_unfolding_all decide, by with_unfolding_all decide⟩
  · rw [one_hot_encode_single]
    simp only [encodeStep, if_pos hi, huniq]
    simp
  · rw [one_hot_encode_single]
    simp only [encodeStep, if_pos hi, huniq]
    simp

theorem one_hot_three_categories_witness :
    ((∀ row ∈ ([[Cell.str "b"], [Cell.str "a"], [Cell.str "c"]] : List (List Cell)),
        0 < row.length) ∧
      (∀ row ∈ ([[Cell.str "b"], [Cell.str "a"], [Cell.str "c"]] : List (List Cell)),
        row.getD 0 (Cell.num 0) = Cell.str "a" ∨
        row.getD 0 (Cell.num 0) = Cell.str "b" ∨
        row.getD 0 (Cell.num 0) = Cell.str "c") ∧
      (∃ row ∈ ([[Cell.str "b"], [Cell.str "a"], [Cell.str "c"]] : List (List Cell)),
        row.getD 0 (Cell.num 0) = Cell.str "a") ∧
      (∃ row ∈ ([[Cell.str "b"], [Cell.str "a"], [Cell.str "c"]] : List (List Cell)),
        row.getD 0 (Cell.num 0) = Cell.str "b") ∧
      (∃ row ∈ ([[Cell.str "b"], [Cell.str "a"], [Cell.str "c"]] : List (List Cell)),
        row.getD 0 (Cell.num 0) = Cell.str "c")) ∧
    ((one_hot_encode [[Cell.str "b"], [Cell.str "a"], [Cell.str "c"]] [0] false =
      some (([[Cell.str "b"], [Cell.str "a"], [Cell.str "c"]] : List (List Cell)).map
        (fun row => row.take 0 ++
          oneHotRow [Cell.str "a", Cell.str "b", Cell.str "c"] (row.getD 0 (Cell.num 0)) ++
          row.drop (0 + 1)))) ∧
    (one_hot_encode [[Cell.str "b"], [Cell.str "a"], [Cell.str "c"]] [0] true =
      some (([[Cell.str "b"], [Cell.str "a"], [Cell.str "c"]] : List (List Cell)).map
        (fun row => row.take 0 ++
          (oneHotRow [Cell.str "a", Cell.str "b", Cell.str "c"]
            (row.getD 0 (Cell.num 0))).drop 1 ++
          row.drop (0 + 1)))) ∧
    oneHotRow [Cell.str "a", Cell.str "b", Cell.str "c"] (Cell.str "a")
      = [Cell.num 1, Cell.num 0, Cell.num 0] ∧
    oneHotRow [Cell.str "a", Cell.str "b", Cell.str "c"] (Cell.str "b")
      = [Cell.num 0, Cell.num 1, Cell.num 0] ∧
    oneHotRow [Cell.str "a", Cell.str "b", Cell.str "c"] (Cell.str "c")
      = [Cell.num 0, Cell.num 0, Cell.num 1] ∧
    (oneHotRow [Cell.str "a", Cell.str "b", Cell.str "c"] (Cell.str "a")).drop 1
      = [Cell.num 0, Cell.num 0] ∧
    (oneHotRow [Cell.str "a", Cell.str "b", Cell.str "c"] (Cell.str "b")).drop 1
      = [Cell.num 1, Cell.num 0] ∧
    (oneHotRow [Cell.str "a", Cell.str "b", Cell.str "c"] (Cell.str "c")).drop 1
      = [Cell.num 0, Cell.num 1]) :=
  ⟨⟨by with_unfolding_all decide, by with_unfolding_all decide,
      by with_unfolding_all decide, by with_unfolding_all decide,
      by with_unfolding_all decide⟩,
    one_hot_three_categories [[Cell.str "b"], [Cell.str "a"], [Cell.str "c"]] 0
      (by with_unfolding_all decide) (by with_unfolding_all decide)
      (by with_unfolding_all decide) (by with_unfolding_all decide)
      (by with_unfolding_all decide)⟩

theorem sortedUnique_const {l : List Cell} {v : Cell} (hne : l ≠ [])
    (h : ∀ u ∈ l, u = v) : sortedUnique l = [v] := by
  apply sortedUnique_eq_sorted
  · simp
  · intro u
    constructor
    · intro hu
      simp [h u hu]
    · intro hu
      simp only [List.mem_singleton] at hu
      subst hu
      obtain ⟨x, l', rfl⟩ := List.exists_cons_of_ne_nil hne
      have hx := h x (by simp)
      rw [← hx]
      simp

/-- Claim C8: a categorical column with exactly one distinct value encoded
with `drop_first = True` contributes zero output columns - every row just
loses that column - and no error is raised (the encoder returns a result). -/
theorem one_hot_single_level_drop_first (X : List (List Cell)) (i : Nat) (v : Cell)
    (hne : X ≠ []) (hi : ∀ row ∈ X, i < row.length)
    (hconst : ∀ row ∈ X, row.getD i (Cell.num 0) = v) :
    one_hot_encode X [i] true =
      some (X.map (fun row => row.take i ++ row.drop (i + 1))) ∧
    ∀ row ∈ X, (row.take i ++ row.drop (i + 1)).length = row.length - 1 := by
  constructor
  · rw [one_hot_encode_single]
    have huniq : sortedUnique (X.map (fun row => row.getD i (Cell.num 0))) = [v] := by
      apply sortedUnique_const (by simpa using hne)
      intro u hu
      obtain ⟨row, hrow, rfl⟩ := List.mem_map.mp hu
      exact hconst row hrow
    simp only [encodeStep, if_pos hi, huniq]
    refine congrArg some (List.map_congr_left ?_)
    intro row hrow
    rw [hconst row hrow]
    have hrank : oneHotRow [v] v = [Cell.num 1] := by
      simp [oneHotRow, rankOf, List.filter_cons, decide_eq_false (cellLt_irrefl v),
        List.range_succ]
    rw [hrank]
    simp
  · intro row hrow
    have := hi row hrow
    rw [List.length_append, List.length_take, List.length_drop]
    omega

theorem one_hot_single_level_drop_first_witness :
    (([[Cell.str "x", Cell.num 7]] : List (List Cell)) ≠ [] ∧
      (∀ row ∈ ([[Cell.str "x", Cell.num 7]] : List (List Cell)), 0 < row.length) ∧
      (∀ row ∈ ([[Cell.str "x", Cell.num 7]] : List (List Cell)),
        row.getD 0 (Cell.num 0) = Cell.str "x")) ∧
    (one_hot_encode [[Cell.str "x", Cell.num 7]] [0] true =
      some (([[Cell.str "x", Cell.num 7]] : List (List Cell)).map
        (fun row => row.take 0 ++ row.drop (0 + 1))) ∧
    ∀ row ∈ ([[Cell.str "x", Cell.num 7]] : List (List Cell)),
      (row.take 0 ++ row.drop (0 + 1)).length = row.length - 1) :=
  ⟨⟨by with_unfolding_all decide, by with_unfolding_all decide,
      by with_unfolding_all decide⟩,
    one_hot_single_level_drop_first [[Cell.str "x", Cell.num 7]] 0 (Cell.str "x")
      (by with_unfolding_all decide) (by with_unfolding_all decide)
      (by with_unfolding_all decide)⟩

theorem zip_self_map (y : List ℚ) : y.zip y = y.map (fun a => (a, a)) := by
  induction y with
  | nil => simp
  | cons a l ih => simp [ih]

theorem sum_sq_zero_all_eq {l : List ℚ} {μ : ℚ}
    (h : (l.map (fun v => (v - μ) ^ 2)).sum = 0) : ∀ v ∈ l, v = μ := by
  induction l with
  | nil => simp
  | cons a l ih =>
    simp only [List.map_cons, List.sum_cons] at h
    have h1 : 0 ≤ (a - μ) ^ 2 := sq_nonneg _
    have h2 : 0 ≤ (l.map (fun v => (v - μ) ^ 2)).sum := by
      apply List.sum_nonneg
      intro x hx
      obtain ⟨v, hv, rfl⟩ := List.mem_map.mp hx
      exact sq_nonneg _
    have ha : (a - μ) ^ 2 = 0 := by linarith
    have hs : (l.map (fun v => (v - μ) ^ 2)).sum = 0 := by linarith
    intro v hv
    rcases List.mem_cons.mp hv with rfl | hv
    · have := pow_eq_zero_iff (two_ne_zero) |>.mp ha
      linarith
    · exact ih hs v hv

/-- Claim C10 counterexample: for the constant vector `y = [1, 1]` the total
sum of squares is `0`, so `R2 = 1 - RSS/TSS` is the float `0.0/0.0` (NaN,
modelled as `none`) rather than exactly `1.0`, even though the predictions
equal the true values. -/
theorem evaluate_regression_constant_target :
    (evaluate_regression [1, 1] [1, 1]).R2 = none ∧
    (evaluate_regression [1, 1] [1, 1]).R2 ≠ some 1 := by
  constructor <;> with_unfolding_all decide

/-- Claim C10 (amended): for every nonempty numeric vector `y` whose entries
are not all equal (so that `TSS ≠ 0`), `evaluate_regression(y, y)` returns
exactly `R2 = 1.0`, `RMSE = 0.0` and `MAE = 0.0`. -/
theorem evaluate_regression_perfect_predictions (y : List ℚ)
    (hne : y ≠ []) (hvar : ∃ u ∈ y, ∃ w ∈ y, u ≠ w) :
    evaluate_regression y y = { R2 := some 1, RMSE := some 0, MAE := some 0 } := by
  have hlen0 : y.length ≠ 0 := by simpa using hne
  have hN : ((y.length : ℕ) : ℚ) ≠ 0 := Nat.cast_ne_zero.mpr hlen0
  have hRSS : ((y.zip y).map (fun p => (p.1 - p.2) ^ 2)).sum = 0 := by
    rw [zip_self_map, List.map_map]
    simp [Function.comp_def]
  have hMAEsum : ((y.zip y).map (fun p => |p.1 - p.2|)).sum = 0 := by
    rw [zip_self_map, List.map_map]
    simp [Function.comp_def]
  have hTSS : (y.map (fun v => (v - y.sum / ((y.length : ℕ) : ℚ)) ^ 2)).sum ≠ 0 := by
    intro h0
    obtain ⟨u, hu, w, hw, huw⟩ := hvar
    exact huw ((sum_sq_zero_all_eq h0 u hu).trans (sum_sq_zero_all_eq h0 w hw).symm)
  have hsqrt : sqrtQ 0 = 0 := by with_unfolding_all decide
  simp only [evaluate_regression, qdiv, hRSS, hMAEsum, if_neg hN, if_neg hTSS,
    Option.some_bind, zero_div, sub_zero, mul_zero, hsqrt]
  simp

theorem evaluate_regression_perfect_predictions_witness :
    (([(1 : ℚ), 2] ≠ []) ∧ (∃ u ∈ [(1 : ℚ), 2], ∃ w ∈ [(1 : ℚ), 2], u ≠ w)) ∧
    evaluate_regression [1, 2] [1, 2] =
      { R2 := some 1, RMSE := some 0, MAE := some 0 } :=
  ⟨⟨by simp, by with_unfolding_all decide⟩,
    evaluate_regression_perfect_predictions [1, 2] (by simp)
      (by with_unfolding_all decide)⟩
